import Mathlib

/-!
Verification development for the toxic-comment classification notebook
(`Preprocessing/toxic_comment_preprocessing.ipynb`).

The notebook's own code (text cleaning, dataset wrapping, the training and
evaluation loops) is embedded shallowly below.  Behavior delegated wholly to
external libraries (the pretrained encoder, the tokenizer, the optimizer,
`sklearn.model_selection.train_test_split`, `torch.utils.data.DataLoader`,
`sklearn.metrics.roc_auc_score`, pandas positional indexing) is modelled from
the specification's stated contracts; every such definition carries a doc
comment saying so.  Machine reals are modelled by `ℚ`; fallible operations
return `Option`.  Bounded recursion uses an explicit fuel argument equal to a
length bound, so that every definition evaluates by kernel reduction.
-/

/-! ### TextCleaner (`clean_text`, notebook cell 8) -/

/-- Whitespace in the sense of the regular-expression class matched by a
non-greedy complement of Python's `\S` (space, tab, newline, carriage return,
vertical tab, form feed). -/
def isPySpace (c : Char) : Bool :=
  c == ' ' || c == '\t' || c == '\n' || c == '\r' || c == '\x0b' || c == '\x0c'

/-- Drop the maximal leading run of non-whitespace characters (the `\S+` part
of the URL pattern). -/
def dropNonSpace (cs : List Char) : List Char :=
  cs.dropWhile (fun c => !isPySpace c)

/-- Scanner for `re.sub(r'http\S+', '', text)`: at each position, if the text
starts with `http` followed by at least one non-whitespace character, the
whole match (`http` plus the maximal non-whitespace run) is deleted and the
scan resumes after it; otherwise the current character is kept and the scan
moves one position right.  The fuel argument is a bound on the number of scan
steps; each step consumes at least one character, so fuel equal to the input
length always suffices. -/
def stripUrlsGo : Nat → List Char → List Char
  | 0, cs => cs
  | _ + 1, [] => []
  | fuel + 1, 'h' :: 't' :: 't' :: 'p' :: d :: rest =>
      if isPySpace d then 'h' :: stripUrlsGo fuel ('t' :: 't' :: 'p' :: d :: rest)
      else stripUrlsGo fuel (dropNonSpace rest)
  | fuel + 1, c :: cs => c :: stripUrlsGo fuel cs

/-- Removal of URL-like substrings, `re.sub(r'http\S+', '', text)`. -/
def stripUrls (cs : List Char) : List Char :=
  stripUrlsGo cs.length cs

/-- Replacement of newlines by spaces, `re.sub(r'\n', ' ', text)`. -/
def replaceNewlines (cs : List Char) : List Char :=
  cs.map (fun c => if c == '\n' then ' ' else c)

/-- Membership in the character class `[A-Za-z0-9 ]` kept by
`re.sub(r'[^A-Za-z0-9 ]+', '', text)`. -/
def isAlnumSpace (c : Char) : Bool :=
  (decide (65 ≤ c.toNat) && decide (c.toNat ≤ 90)) ||
  (decide (97 ≤ c.toNat) && decide (c.toNat ≤ 122)) ||
  (decide (48 ≤ c.toNat) && decide (c.toNat ≤ 57)) ||
  c == ' '

/-- The notebook's `clean_text`: remove URLs, replace newlines with spaces,
remove every character outside `[A-Za-z0-9 ]`, lowercase the result. -/
def clean_text (text : String) : String :=
  let cs₁ := stripUrls text.toList
  let cs₂ := replaceNewlines cs₁
  let cs₃ := cs₂.filter isAlnumSpace
  String.mk (cs₃.map Char.toLower)

/-! ### CSV cell values and the cleaning pipeline (notebook cell 8, last lines) -/

/-- A raw value of the `comment_text` column as loaded from the CSV: a string,
a number, or a missing value. -/
inductive CellValue where
  | text (s : String)
  | number (q : ℚ)
  | missing
deriving DecidableEq

/-- String coercion of a cell value, as performed by `.astype(str)` on the
column before `clean_text` is applied (a missing value prints as `nan`). -/
def cellToStr : CellValue → String
  | .text s => s
  | .number q =>
      if q.den = 1 then toString q.num else toString q.num ++ "/" ++ toString q.den
  | .missing => "nan"

/-- Applying `clean_text` directly to a raw cell value: the regular-expression
substitution accepts only strings, so any non-string input signals a
TypeError-class failure, modelled as `none`. -/
def clean_text_py : CellValue → Option String
  | .text s => some (clean_text s)
  | _ => none

/-- The notebook's column pipeline `df['comment_text'].astype(str).apply(clean_text)`:
every cell is string-coerced first, then cleaned. -/
def cleanedColumn (cells : List CellValue) : List String :=
  cells.map (fun v => clean_text (cellToStr v))

/-! ### Labels and rows (notebook cell 10) -/

/-- The six toxicity label columns, in the notebook's fixed order. -/
inductive Label where
  | toxic
  | severe_toxic
  | obscene
  | threat
  | insult
  | identity_hate
deriving DecidableEq

/-- The notebook's `labels` list:
`['toxic', 'severe_toxic', 'obscene', 'threat', 'insult', 'identity_hate']`. -/
def labels : List Label :=
  [Label.toxic, Label.severe_toxic, Label.obscene, Label.threat,
   Label.insult, Label.identity_hate]

/-- One row of the dataframe after cleaning and numeric label coercion. -/
structure Row where
  comment_text : String
  toxic : ℚ
  severe_toxic : ℚ
  obscene : ℚ
  threat : ℚ
  insult : ℚ
  identity_hate : ℚ
deriving DecidableEq

/-- Reading one label column of a row. -/
def labelValue (r : Row) : Label → ℚ
  | .toxic => r.toxic
  | .severe_toxic => r.severe_toxic
  | .obscene => r.obscene
  | .threat => r.threat
  | .insult => r.insult
  | .identity_hate => r.identity_hate

/-! ### Script constants (notebook cells 4, 12, 18) -/

/-- The notebook's `RANDOM_SEED = 42`. -/
def RANDOM_SEED : Nat := 42

/-- The notebook's `MAX_LEN = 128`. -/
def MAX_LEN : Nat := 128

/-- The notebook's `BATCH_SIZE = 16`. -/
def BATCH_SIZE : Nat := 16

/-! ### Tokenizer boundary and `ToxicCommentsDataset` (notebook cell 16) -/

/-- Result of one tokenizer call (`tokenizer.encode_plus`). -/
structure Encoding where
  input_ids : List Nat
  attention_mask : List Nat
  token_type_ids : List Nat
deriving DecidableEq

/-- One item produced by `ToxicCommentsDataset.__getitem__`. -/
structure EncodedExample where
  input_ids : List Nat
  attention_mask : List Nat
  token_type_ids : List Nat
  targets : List ℚ
deriving DecidableEq

/-- The tokenizer boundary contract from the specification: called on a string
with a requested `max_length` (truncation and padding to `max_length`, special
tokens added, token-type ids returned), it returns the three id sequences each
of length exactly `max_length`. -/
def TokenizerContract (tok : String → Nat → Encoding) : Prop :=
  ∀ s L, ((tok s L).input_ids.length = L ∧ (tok s L).attention_mask.length = L ∧
          (tok s L).token_type_ids.length = L)

/-- The notebook's `ToxicCommentsDataset(dataframe, tokenizer, max_len, labels)`. -/
structure ToxicCommentsDataset where
  df : List Row
  tokenizer : String → Nat → Encoding
  max_len : Nat
  labels : List Label

/-- The dataset's `__len__`: the row count of the wrapped dataframe. -/
def ToxicCommentsDataset.size (d : ToxicCommentsDataset) : Nat :=
  d.df.length

/-- Modelled from the spec: positional row access `df.iloc[index]` of the
external dataframe library, whose contract in the specification is that
`get(index)` succeeds for `0 <= index < size()` and signals an
IndexError-class condition (here `none`) for every index outside that
range. -/
def ilocGet (rows : List Row) (index : Int) : Option Row :=
  if 0 ≤ index then rows.get? index.toNat else none

/-- The dataset's `__getitem__`: look up the row, tokenize its cleaned text
with `max_length = self.max_len`, and read the label columns in the order of
`self.labels` as float targets.  An out-of-range index propagates the lookup
failure to the caller. -/
def ToxicCommentsDataset.getItem (d : ToxicCommentsDataset) (index : Int) :
    Option EncodedExample :=
  match ilocGet d.df index with
  | none => none
  | some row =>
      let inputs := d.tokenizer row.comment_text d.max_len
      some { input_ids := inputs.input_ids
             attention_mask := inputs.attention_mask
             token_type_ids := inputs.token_type_ids
             targets := d.labels.map (labelValue row) }

/-! ### Deterministic pseudo-random shuffling

Modelled from the spec: both `train_test_split(..., random_state=seed)` and the
shuffling `DataLoader` are external components whose specified contract is a
deterministic pseudo-random permutation of their input, reproducible from the
seed.  The concrete pseudo-random source below is a linear congruential
generator; any seeded generator satisfies the specified properties. -/

/-- One step of a linear congruential pseudo-random generator. -/
def lcgNext (s : Nat) : Nat :=
  (1103515245 * s + 12345) % 2147483648

/-- Seeded Fisher-Yates-style shuffle: repeatedly draw an index from the
generator, move that element to the front, and recurse on the rest.  The fuel
argument bounds the number of draws; each draw removes one element, so fuel
equal to the input length suffices. -/
def shuffleGo {α : Type} : Nat → Nat → List α → List α
  | 0, _, xs => xs
  | _ + 1, _, [] => []
  | fuel + 1, seed, x :: rest =>
      let l := x :: rest
      let i := lcgNext seed % l.length
      l.getD i x :: shuffleGo fuel (lcgNext seed) (l.eraseIdx i)

/-- Modelled from the spec: the deterministic seeded permutation underlying
`train_test_split` and the shuffling `DataLoader`. -/
def shuffleList {α : Type} (seed : Nat) (xs : List α) : List α :=
  shuffleGo xs.length seed xs

/-! ### `train_test_split` (notebook cell 12) -/

/-- Modelled from the spec: `sklearn.model_selection.train_test_split` with
`test_size` a fraction and `random_state` a seed.  The input is permuted
deterministically from the seed; `⌈test_size · n⌉` examples go to the
validation (test) part and the rest to the training part. -/
def train_test_split {α : Type} (xs : List α) (test_size : ℚ) (random_state : Nat) :
    List α × List α :=
  let n_test := (Int.ceil (test_size * (xs.length : ℚ))).toNat
  let shuffled := shuffleList random_state xs
  (shuffled.drop n_test, shuffled.take n_test)

/-! ### `DataLoader` batching (notebook cell 18)

Modelled from the spec: `torch.utils.data.DataLoader(dataset, batch_size,
shuffle)` traverses the index range of the dataset — in store order, or in a
seeded pseudo-random permutation when `shuffle=True` — and groups consecutive
indices into batches of `batch_size`, the final batch holding the remainder. -/

/-- Group a list into consecutive chunks of size `b` (the last chunk holds the
remainder).  The fuel argument bounds the number of chunks; with `0 < b` each
chunk consumes at least one element, so fuel equal to the input length
suffices. -/
def chunkGo {α : Type} (b : Nat) : Nat → List α → List (List α)
  | 0, _ => []
  | _ + 1, [] => []
  | fuel + 1, x :: rest =>
      (x :: rest).take b :: chunkGo b fuel ((x :: rest).drop b)

/-- Chunking with fuel fixed to the input length. -/
def chunkList {α : Type} (b : Nat) (xs : List α) : List (List α) :=
  chunkGo b xs.length xs

/-- Modelled from the spec: the sequence of index batches produced by one full
traversal of a `DataLoader` over a dataset of `n` items. -/
def dataLoaderBatches (n batch_size : Nat) (shuffle : Bool) (seed : Nat) :
    List (List Nat) :=
  chunkList batch_size
    (if shuffle then shuffleList seed (List.range n) else List.range n)

/-! ### Classifier, training loop and evaluation loop (notebook cells 20, 24, 28)

The external framework's primitives (the pretrained encoder, dropout, the
affine head, the loss module, autodiff, the optimizer update, the learning-rate
schedule, the sigmoid) are opaque operations passed around by the notebook
code; they are collected in a `TorchEnv` record of abstract functions, exactly
as `train_epoch` and `eval_model` receive `model`, `criterion`, `optimizer` and
`scheduler` as parameters.  `E` is the type of encoder parameters, `W` of the
head's affine parameters, `G` of accumulated gradients, `O` of optimizer state,
`S` of scheduler state and `B` of batches. -/

/-- Learned parameters of `BertForToxicComment`: the pretrained encoder plus
the linear head `self.out`. -/
structure BertForToxicComment (E W : Type) where
  bert : E
  out : W
deriving DecidableEq

/-- A module together with its training/evaluation mode flag, as toggled by
`model.train()` and `model.eval()`. -/
structure ModelState (E W : Type) where
  p : BertForToxicComment E W
  training : Bool
deriving DecidableEq

/-- The external framework operations the notebook delegates to. -/
structure TorchEnv (E W G O S B : Type) where
  encode : E → B → List (List ℚ)
  dropout : List (List ℚ) → List (List ℚ)
  linear : W → List (List ℚ) → List (List ℚ)
  sigmoid : ℚ → ℚ
  criterion : List (List ℚ) → List (List ℚ) → ℚ
  batchTargets : B → List (List ℚ)
  zeroGradF : G → G
  backwardF : BertForToxicComment E W → B → G → G
  clipGradF : ℚ → G → G
  optStepF : O → G → BertForToxicComment E W → O × BertForToxicComment E W
  schedStepF : S → S

/-- The classifier's `forward`: encode, take the pooled output, apply dropout
(a `nn.Dropout` layer is active only in training mode, the identity in
evaluation mode), then the affine head. -/
def modelForward {E W G O S B : Type} (env : TorchEnv E W G O S B)
    (m : ModelState E W) (batch : B) : List (List ℚ) :=
  let pooled_output := env.encode m.p.bert batch
  let output := if m.training then env.dropout pooled_output else pooled_output
  env.linear m.p.out output

/-- The operations performed by the body of the training loop, in the order
they are executed. -/
inductive TrainAction where
  | forwardPass
  | computeLoss
  | zeroGrad
  | backwardPass
  | clipGradNorm (maxNorm : ℚ)
  | optimizerStep
  | schedulerStep
deriving DecidableEq

/-- Mutable state threaded through the training loop: the model, the
accumulated gradients, the optimizer state and the optional scheduler state. -/
structure OptimState (E W G O S : Type) where
  model : ModelState E W
  grads : G
  opt : O
  sched : Option S
deriving DecidableEq

/-- One iteration of the `train_epoch` loop body, as a state transformer that
also reports the batch's loss value and the ordered list of operations it
performed: forward pass, loss computation, `optimizer.zero_grad()`,
`loss.backward()`, `clip_grad_norm_(model.parameters(), max_norm=1.0)`,
`optimizer.step()`, then `scheduler.step()` when a scheduler is present. -/
def trainStep {E W G O S B : Type} (env : TorchEnv E W G O S B)
    (st : OptimState E W G O S) (batch : B) :
    OptimState E W G O S × ℚ × List TrainAction :=
  let outputs := modelForward env st.model batch
  let loss := env.criterion outputs (env.batchTargets batch)
  let g₀ := env.zeroGradF st.grads
  let g₁ := env.backwardF st.model.p batch g₀
  let g₂ := env.clipGradF 1 g₁
  let op := env.optStepF st.opt g₂ st.model.p
  let sched₂ := st.sched.map env.schedStepF
  ({ model := { p := op.2, training := st.model.training }
     grads := g₂, opt := op.1, sched := sched₂ },
   loss,
   [TrainAction.forwardPass, TrainAction.computeLoss, TrainAction.zeroGrad,
    TrainAction.backwardPass, TrainAction.clipGradNorm 1,
    TrainAction.optimizerStep] ++
     (if st.sched.isSome then [TrainAction.schedulerStep] else []))

/-- The notebook's `train_epoch`: put the model in training mode, run the loop
body over every batch accumulating `total_loss`, and return
`total_loss / len(data_loader)` — a ZeroDivisionError (`none`) when the loader
is empty.  The third component is the ordered trace of framework operations
performed. -/
def train_epoch {E W G O S B : Type} (env : TorchEnv E W G O S B)
    (m : ModelState E W) (g : G) (o : O) (sched : Option S) (batches : List B) :
    OptimState E W G O S × Option ℚ × List TrainAction :=
  let init : OptimState E W G O S :=
    { model := { p := m.p, training := true }, grads := g, opt := o, sched := sched }
  let run := batches.foldl
    (fun acc b =>
      let step := trainStep env acc.1 b
      (step.1, acc.2.1 + step.2.1, acc.2.2 ++ step.2.2))
    (init, (0 : ℚ), ([] : List TrainAction))
  (run.1,
   if batches.length = 0 then none else some (run.2.1 / (batches.length : ℚ)),
   run.2.2)

/-- The per-batch loss values observed by `train_epoch`, with the model state
threaded batch by batch exactly as the loop does. -/
def epochBatchLosses {E W G O S B : Type} (env : TorchEnv E W G O S B) :
    OptimState E W G O S → List B → List ℚ
  | _, [] => []
  | st, b :: bs =>
      let step := trainStep env st b
      step.2.1 :: epochBatchLosses env step.1 bs

/-! ### Ranking score (`sklearn.metrics.roc_auc_score`) -/

/-- Contribution of one (positive, negative) prediction pair to the ranking
score: `1` when the positive is ranked strictly higher, `1/2` on a tie, `0`
otherwise. -/
def pairContrib (p n : ℚ) : ℚ :=
  if n < p then 1 else if p = n then 1 / 2 else 0

/-- Sum of pair contributions over all (positive, negative) pairs. -/
def aucSum (pos neg : List ℚ) : ℚ :=
  (pos.map (fun p => (neg.map (fun n => pairContrib p n)).sum)).sum

/-- Modelled from the spec: `sklearn.metrics.roc_auc_score(y_true, y_score)`
on binary targets — the probability that a randomly chosen positive example is
scored higher than a randomly chosen negative one (ties counting one half).
When only one class is present among the targets the score is undefined and a
ValueError-class condition (`none`) is signalled. -/
def roc_auc_score (y_true y_score : List ℚ) : Option ℚ :=
  let paired := y_true.zip y_score
  let pos := (paired.filter (fun t => decide (t.1 = 1))).map Prod.snd
  let neg := (paired.filter (fun t => decide (t.1 = 0))).map Prod.snd
  if pos.length = 0 ∨ neg.length = 0 then none
  else some (aucSum pos neg / ((pos.length : ℚ) * (neg.length : ℚ)))

/-- A per-label entry of the `roc_auc` dictionary returned by `eval_model`:
either a numeric score, or the explicit marker string
`'Undefined (only one class present)'`. -/
inductive RocAucEntry where
  | score (q : ℚ)
  | undefinedOneClass
deriving DecidableEq

/-- The row-concatenation `np.concatenate(all_targets)` of every batch's
target matrix, in batch order. -/
def allTargetsOf {E W G O S B : Type} (env : TorchEnv E W G O S B)
    (batches : List B) : List (List ℚ) :=
  (batches.map env.batchTargets).flatten

/-- The row-concatenation `np.concatenate(all_outputs)` of every batch's
sigmoid-transformed logits, computed in evaluation mode, in batch order. -/
def allOutputsOf {E W G O S B : Type} (env : TorchEnv E W G O S B)
    (m : ModelState E W) (batches : List B) : List (List ℚ) :=
  (batches.map (fun b =>
    (modelForward env { p := m.p, training := false } b).map
      (fun row => row.map env.sigmoid))).flatten

/-- Column `i` of a row-major matrix, `mat[:, i]`. -/
def colOf (mat : List (List ℚ)) (i : Nat) : List ℚ :=
  mat.map (fun r => r.getD i 0)

/-- The result record of `eval_model`: the model it evaluated (in evaluation
mode), the average loss, and the per-label ranking scores. -/
structure EvalOut (E W : Type) where
  model : ModelState E W
  avg_loss : Option ℚ
  roc_auc : List (Label × RocAucEntry)
deriving DecidableEq

/-- The notebook's `eval_model`: put the model in evaluation mode, traverse
the loader without updating anything, accumulate `total_loss` and collect all
targets and sigmoid outputs, compute `avg_loss = total_loss / len(data_loader)`
(a ZeroDivisionError, `none`, on an empty loader), then score each label with
`roc_auc_score`, converting the ValueError of a single-class label into the
explicit undefined marker instead of aborting. -/
def eval_model {E W G O S B : Type} (env : TorchEnv E W G O S B)
    (m : ModelState E W) (batches : List B) : EvalOut E W :=
  let mEval : ModelState E W := { p := m.p, training := false }
  let total_loss := (batches.map (fun b =>
      env.criterion (modelForward env mEval b) (env.batchTargets b))).sum
  let all_targets := allTargetsOf env batches
  let all_outputs := allOutputsOf env m batches
  let avg_loss :=
    if batches.length = 0 then none
    else some (total_loss / (batches.length : ℚ))
  let roc := labels.enum.map (fun il =>
    (il.2,
     match roc_auc_score (colOf all_targets il.1) (colOf all_outputs il.1) with
     | some q => RocAucEntry.score q
     | none => RocAucEntry.undefinedOneClass))
  { model := mEval, avg_loss := avg_loss, roc_auc := roc }

/-- The ordered list of framework operations the training loop performs for a
single batch, with `schedulerStep` present exactly when a scheduler is
configured. -/
def perBatchActions (hasScheduler : Bool) : List TrainAction :=
  [TrainAction.forwardPass, TrainAction.computeLoss, TrainAction.zeroGrad,
   TrainAction.backwardPass, TrainAction.clipGradNorm 1,
   TrainAction.optimizerStep] ++
    (if hasScheduler then [TrainAction.schedulerStep] else [])

/-- A fully concrete instantiation of the framework operations, used to
exercise the loop theorems on executable inputs: a batch is its own target
matrix, the encoder and head are identities, and the loss is constantly
zero. -/
def stubEnv : TorchEnv Unit Unit Unit Unit Unit (List (List ℚ)) where
  encode := fun _ b => b
  dropout := fun m => m
  linear := fun _ m => m
  sigmoid := fun q => q
  criterion := fun _ _ => 0
  batchTargets := fun b => b
  zeroGradF := fun g => g
  backwardF := fun _ _ g => g
  clipGradF := fun _ g => g
  optStepF := fun o _ p => (o, p)
  schedStepF := fun s => s

/-- A concrete model state for the stub environment. -/
def stubModel : ModelState Unit Unit :=
  { p := { bert := (), out := () }, training := true }

/-- A concrete tokenizer that honors the boundary contract by padding every
sequence to the requested length. -/
def padTokenizer : String → Nat → Encoding :=
  fun _ L =>
    { input_ids := List.replicate L 0
      attention_mask := List.replicate L 1
      token_type_ids := List.replicate L 0 }

/-- A concrete one-row dataset over the padding tokenizer, built exactly as the
notebook builds its datasets (`max_len = MAX_LEN`, label columns `labels`). -/
def demoDataset : ToxicCommentsDataset :=
  { df := [{ comment_text := "hello", toxic := 1, severe_toxic := 0,
             obscene := 0, threat := 0, insult := 0, identity_hate := 0 }]
    tokenizer := padTokenizer
    max_len := MAX_LEN
    labels := labels }

/-- A concrete two-example batch list for the evaluation theorems: label
column 0 contains both classes, label column 1 contains a single class. -/
def demoBatches : List (List (List ℚ)) :=
  [[[1, 0, 0, 0, 0, 0], [0, 0, 0, 0, 0, 0]]]

/-! ### Helper lemmas about shuffling and chunking -/

/-- Moving any element of a list to the front is a permutation. -/
theorem getD_cons_eraseIdx_perm {α : Type} :
    ∀ (l : List α) (i : Nat), i < l.length → ∀ d : α,
      List.Perm (l.getD i d :: l.eraseIdx i) l
  | [], i, hi, _ => by simp at hi
  | x :: rest, 0, _, d => by simp
  | x :: rest, i + 1, hi, d => by
      have hi' : i < rest.length := by simpa using hi
      have ih := getD_cons_eraseIdx_perm rest i hi' d
      simp only [List.getD_cons_succ, List.eraseIdx_cons_succ]
      exact (List.Perm.swap x (rest.getD i d) (rest.eraseIdx i)).trans
        (List.Perm.cons x ih)

/-- The fuelled shuffle permutes its input whenever the fuel covers the
length. -/
theorem shuffleGo_perm {α : Type} :
    ∀ (fuel seed : Nat) (xs : List α), xs.length ≤ fuel →
      List.Perm (shuffleGo fuel seed xs) xs
  | 0, _, xs, h => by
      have hx : xs = [] := List.length_eq_zero.mp (Nat.le_zero.mp h)
      subst hx
      exact List.Perm.refl _
  | _ + 1, _, [], _ => List.Perm.refl _
  | fuel + 1, seed, x :: rest, h => by
      have hil : lcgNext seed % (x :: rest).length < (x :: rest).length :=
        Nat.mod_lt _ (by simp)
      have hlen : ((x :: rest).eraseIdx (lcgNext seed % (x :: rest).length)).length ≤ fuel := by
        have h1 := List.length_eraseIdx_add_one hil
        simp only [List.length_cons] at h h1 ⊢
        omega
      exact (List.Perm.cons _ (shuffleGo_perm fuel (lcgNext seed) _ hlen)).trans
        (getD_cons_eraseIdx_perm (x :: rest) _ hil x)

/-- The seeded shuffle permutes its input. -/
theorem shuffleList_perm {α : Type} (seed : Nat) (xs : List α) :
    List.Perm (shuffleList seed xs) xs :=
  shuffleGo_perm xs.length seed xs le_rfl

/-- Chunking the empty list yields no chunks, for any fuel. -/
theorem chunkGo_nil {α : Type} (b : Nat) : ∀ fuel, chunkGo b fuel ([] : List α) = []
  | 0 => rfl
  | _ + 1 => rfl

/-- Chunking a non-empty list yields at least one chunk. -/
theorem chunkGo_ne_nil {α : Type} (b : Nat) :
    ∀ (fuel : Nat) (xs : List α), 0 < xs.length → xs.length ≤ fuel →
      chunkGo b fuel xs ≠ []
  | 0, _, hx, hf => by omega
  | _ + 1, [], hx, _ => by simp at hx
  | _ + 1, _ :: _, _, _ => by simp [chunkGo]

/-- Concatenating the chunks recovers the original list. -/
theorem chunkGo_flatten {α : Type} (b : Nat) (hb : 0 < b) :
    ∀ (fuel : Nat) (xs : List α), xs.length ≤ fuel →
      (chunkGo b fuel xs).flatten = xs
  | 0, xs, h => by
      have hx : xs = [] := List.length_eq_zero.mp (Nat.le_zero.mp h)
      subst hx
      rfl
  | _ + 1, [], _ => rfl
  | fuel + 1, x :: rest, h => by
      simp only [chunkGo, List.flatten_cons]
      rw [chunkGo_flatten b hb fuel _
        (by rw [List.length_drop]; simp only [List.length_cons] at h ⊢; omega)]
      exact List.take_append_drop b (x :: rest)

/-- Every chunk except the last has length exactly the batch size. -/
theorem chunkGo_dropLast_length {α : Type} (b : Nat) (hb : 0 < b) :
    ∀ (fuel : Nat) (xs : List α), xs.length ≤ fuel →
      ∀ c ∈ (chunkGo b fuel xs).dropLast, c.length = b
  | 0, xs, _, c => by intro hc; simp [chunkGo] at hc
  | _ + 1, [], _, c => by intro hc; simp [chunkGo] at hc
  | fuel + 1, x :: rest, h, c => by
      intro hc
      simp only [chunkGo] at hc
      by_cases hd : (x :: rest).drop b = []
      · rw [hd, chunkGo_nil] at hc
        simp at hc
      · have hdl : 0 < ((x :: rest).drop b).length := List.length_pos.mpr hd
        have hfl : ((x :: rest).drop b).length ≤ fuel := by
          rw [List.length_drop]
          simp only [List.length_cons] at h ⊢
          omega
        have hne := chunkGo_ne_nil b fuel _ hdl hfl
        rw [List.dropLast_cons_of_ne_nil hne] at hc
        rcases List.mem_cons.mp hc with hc | hc
        · subst hc
          have hblt : b < (x :: rest).length := by
            rw [List.length_drop] at hdl
            omega
          rw [List.length_take]
          omega
        · exact chunkGo_dropLast_length b hb fuel _ hfl c hc

/-- The last chunk holds the remainder: its length is `n % b` when that is
nonzero, and `b` otherwise. -/
theorem chunkGo_getLast_length {α : Type} (b : Nat) (hb : 0 < b) :
    ∀ (fuel : Nat) (xs : List α), 0 < xs.length → xs.length ≤ fuel →
      ((chunkGo b fuel xs).getLast?).map List.length
        = some (if xs.length % b = 0 then b else xs.length % b)
  | 0, _, hx, hf => by omega
  | _ + 1, [], hx, _ => by simp at hx
  | fuel + 1, x :: rest, _, h => by
      simp only [chunkGo]
      by_cases hd : (x :: rest).drop b = []
      · have hlb : (x :: rest).length ≤ b := by
          have hdl : ((x :: rest).drop b).length = 0 := by rw [hd]; rfl
          rw [List.length_drop] at hdl
          omega
        rw [hd, chunkGo_nil]
        simp only [List.getLast?_singleton, Option.map_some']
        congr 1
        rw [List.length_take]
        rcases Nat.lt_or_ge (x :: rest).length b with hlt | hge
        · rw [Nat.mod_eq_of_lt hlt, if_neg (by simp)]
          omega
        · have heq : (x :: rest).length = b := le_antisymm hlb hge
          rw [heq, Nat.mod_self, if_pos rfl]
          omega
      · have hdl : 0 < ((x :: rest).drop b).length := List.length_pos.mpr hd
        have hfl : ((x :: rest).drop b).length ≤ fuel := by
          rw [List.length_drop]
          simp only [List.length_cons] at h ⊢
          omega
        have hble : b ≤ (x :: rest).length := by
          rw [List.length_drop] at hdl
          omega
        obtain ⟨t0, ts, ht⟩ := List.exists_cons_of_ne_nil (chunkGo_ne_nil b fuel _ hdl hfl)
        rw [ht, List.getLast?_cons_cons, ← ht,
          chunkGo_getLast_length b hb fuel _ hdl hfl, List.length_drop,
          ← Nat.mod_eq_sub_mod hble]

/-- Coverage and size properties of chunking, shared by the loader theorem and
its witness. -/
theorem chunkList_spec {α : Type} (b : Nat) (hb : 0 < b) (xs : List α) :
    (chunkList b xs).flatten = xs ∧
    (∀ c ∈ (chunkList b xs).dropLast, c.length = b) ∧
    (0 < xs.length → ((chunkList b xs).getLast?).map List.length
        = some (if xs.length % b = 0 then b else xs.length % b)) :=
  ⟨chunkGo_flatten b hb xs.length xs le_rfl,
   chunkGo_dropLast_length b hb xs.length xs le_rfl,
   fun hx => chunkGo_getLast_length b hb xs.length xs hx le_rfl⟩

/-- C3: `split` (train_test_split) returns a pair (train, validation) with
validation of size `⌈fraction · n⌉` (clamped by `n`), the two parts disjoint,
their concatenation a permutation of the original example set, and the
partition reproducible from the identical (exampleSet, fraction, seed)
triple. -/
theorem train_test_split_spec {α : Type} (xs : List α) (f : ℚ) (seed : Nat)
    (hnd : xs.Nodup) :
    (train_test_split xs f seed).2.length
        = min (Int.ceil (f * (xs.length : ℚ))).toNat xs.length ∧
    List.Perm ((train_test_split xs f seed).1 ++ (train_test_split xs f seed).2) xs ∧
    (∀ a ∈ (train_test_split xs f seed).1, a ∉ (train_test_split xs f seed).2) ∧
    train_test_split xs f seed = train_test_split xs f seed := by
  have hS : List.Perm (shuffleList seed xs) xs := shuffleList_perm seed xs
  have hSlen : (shuffleList seed xs).length = xs.length := hS.length_eq
  refine ⟨?_, ?_, ?_, rfl⟩
  · simp only [train_test_split, List.length_take]
    rw [hSlen]
  · simp only [train_test_split]
    refine List.perm_append_comm.trans ?_
    rw [List.take_append_drop]
    exact hS
  · simp only [train_test_split]
    have hSnd : (shuffleList seed xs).Nodup := hS.symm.nodup hnd
    rw [← List.take_append_drop (Int.ceil (f * (xs.length : ℚ))).toNat
      (shuffleList seed xs)] at hSnd
    have hdisj := (List.nodup_append.mp hSnd).2.2
    exact fun a ha hb₂ => hdisj hb₂ ha

/-- Witness for C3 at a concrete example set, fraction, and the notebook's
seed. -/
theorem train_test_split_spec_witness :
    ([0, 1, 2, 3] : List ℕ).Nodup ∧
    ((train_test_split [0, 1, 2, 3] (1 / 10) RANDOM_SEED).2.length
        = min (Int.ceil ((1 / 10 : ℚ) * (([0, 1, 2, 3] : List ℕ).length : ℚ))).toNat
            ([0, 1, 2, 3] : List ℕ).length ∧
     List.Perm ((train_test_split [0, 1, 2, 3] (1 / 10) RANDOM_SEED).1
         ++ (train_test_split [0, 1, 2, 3] (1 / 10) RANDOM_SEED).2) [0, 1, 2, 3] ∧
     (∀ a ∈ (train_test_split [0, 1, 2, 3] (1 / 10) RANDOM_SEED).1,
        a ∉ (train_test_split [0, 1, 2, 3] (1 / 10) RANDOM_SEED).2) ∧
     train_test_split [0, 1, 2, 3] (1 / 10) RANDOM_SEED
        = train_test_split [0, 1, 2, 3] (1 / 10) RANDOM_SEED) :=
  ⟨by decide, train_test_split_spec [0, 1, 2, 3] (1 / 10) RANDOM_SEED (by decide)⟩

/-- C4: `clean_text` removes URL-like substrings, replaces newlines with
single spaces, removes characters outside `[A-Za-z0-9 ]`, and lowercases; in
particular it maps `"Visit http://x.com NOW!!"` to `"visit  now"`. -/
theorem clean_text_examples :
    clean_text "Visit http://x.com NOW!!" = "visit  now" ∧
    clean_text "a\nb" = "a b" ∧
    clean_text "héllo, World_9!" = "hllo world9" ∧
    clean_text "see http://a.b c" = "see  c" ∧
    clean_text "ABC" = "abc" :=
  ⟨rfl, rfl, rfl, rfl, rfl⟩

/-- C5: one traversal of the loader covers every index of the dataset exactly
once regardless of the shuffle flag; every batch except possibly the last has
size `batch_size`, and the last batch has size `n % batch_size` if that is
nonzero, else `batch_size`. -/
theorem dataLoader_traversal_spec (n b : Nat) (shuffle : Bool) (seed : Nat)
    (hb : 0 < b) :
    List.Perm (dataLoaderBatches n b shuffle seed).flatten (List.range n) ∧
    (∀ c ∈ (dataLoaderBatches n b shuffle seed).dropLast, c.length = b) ∧
    (0 < n → ((dataLoaderBatches n b shuffle seed).getLast?).map List.length
        = some (if n % b = 0 then b else n % b)) := by
  have hperm : List.Perm
      (if shuffle then shuffleList seed (List.range n) else List.range n)
      (List.range n) := by
    cases shuffle
    · exact List.Perm.refl _
    · exact shuffleList_perm seed (List.range n)
  have holen :
      (if shuffle then shuffleList seed (List.range n) else List.range n).length = n := by
    rw [hperm.length_eq, List.length_range]
  have h := chunkList_spec b hb
    (if shuffle then shuffleList seed (List.range n) else List.range n)
  rw [holen] at h
  refine ⟨?_, h.2.1, h.2.2⟩
  show List.Perm (chunkList b
    (if shuffle then shuffleList seed (List.range n) else List.range n)).flatten
    (List.range n)
  rw [h.1]
  exact hperm

/-- Witness for C5 with five indices, batches of two, shuffling on. -/
theorem dataLoader_traversal_spec_witness :
    0 < 2 ∧
    (List.Perm (dataLoaderBatches 5 2 true 7).flatten (List.range 5) ∧
     (∀ c ∈ (dataLoaderBatches 5 2 true 7).dropLast, c.length = 2) ∧
     (0 < 5 → ((dataLoaderBatches 5 2 true 7).getLast?).map List.length
        = some (if 5 % 2 = 0 then 2 else 5 % 2))) :=
  ⟨by decide, dataLoader_traversal_spec 5 2 true 7 (by decide)⟩

/-- C7: `get` succeeds (returns an encoded example) for every index in
`[0, size)` and propagates an IndexError-class failure (`none`) for every
index outside that range. -/
theorem dataset_get_range (d : ToxicCommentsDataset) (index : Int) :
    (0 ≤ index ∧ index < (d.size : Int) → (d.getItem index).isSome = true) ∧
    (¬(0 ≤ index ∧ index < (d.size : Int)) → d.getItem index = none) := by
  simp only [ToxicCommentsDataset.getItem, ToxicCommentsDataset.size, ilocGet]
  by_cases h0 : 0 ≤ index
  · rw [if_pos h0]
    cases hg : d.df.get? index.toNat with
    | none =>
        have hlen : d.df.length ≤ index.toNat := List.get?_eq_none.mp hg
        exact ⟨fun hr => by omega, fun _ => rfl⟩
    | some row =>
        have hlt : index.toNat < d.df.length := by
          obtain ⟨hlt, -⟩ := List.get?_eq_some.mp hg
          exact hlt
        exact ⟨fun _ => rfl, fun hr => by omega⟩
  · rw [if_neg h0]
    exact ⟨fun hr => absurd hr.1 h0, fun _ => rfl⟩

/-- Witness for C7 at an out-of-range index of the concrete dataset. -/
theorem dataset_get_range_witness :
    ((0 ≤ (5 : Int) ∧ (5 : Int) < (demoDataset.size : Int) →
        (demoDataset.getItem 5).isSome = true) ∧
     (¬(0 ≤ (5 : Int) ∧ (5 : Int) < (demoDataset.size : Int)) →
        demoDataset.getItem 5 = none)) :=
  dataset_get_range demoDataset 5

/-- C9: the cleaning pipeline string-coerces each cell before cleaning and so
never fails: it returns one string per cell (including for the empty string,
numeric and missing cells), while `clean_text` applied to a raw non-string
cell without the coercion signals a TypeError-class failure. -/
theorem clean_pipeline_total :
    (∀ v : CellValue, clean_text_py (CellValue.text (cellToStr v))
        = some (clean_text (cellToStr v))) ∧
    clean_text "" = "" ∧
    (∀ cells : List CellValue, (cleanedColumn cells).length = cells.length) ∧
    (∀ q : ℚ, clean_text_py (CellValue.number q) = none) ∧
    clean_text_py CellValue.missing = none :=
  ⟨fun _ => rfl, rfl, fun cells => by simp [cleanedColumn], fun _ => rfl, rfl⟩

/-- C6: assuming the tokenizer honors its boundary contract, every encoded
example returned by `get` has the three id sequences of length `MAX_LEN` and a
target vector of length 6 built from the six label columns in the fixed order
toxic, severe_toxic, obscene, threat, insult, identity_hate. -/
theorem dataset_get_shape (d : ToxicCommentsDataset)
    (htok : TokenizerContract d.tokenizer) (hml : d.max_len = MAX_LEN)
    (hlab : d.labels = labels) (index : Int) (ex : EncodedExample)
    (hex : d.getItem index = some ex) :
    ex.input_ids.length = MAX_LEN ∧ ex.attention_mask.length = MAX_LEN ∧
    ex.token_type_ids.length = MAX_LEN ∧ ex.targets.length = 6 ∧
    ∃ row, ilocGet d.df index = some row ∧
      ex.targets = [row.toxic, row.severe_toxic, row.obscene, row.threat,
                    row.insult, row.identity_hate] := by
  rw [ToxicCommentsDataset.getItem] at hex
  cases hrow : ilocGet d.df index with
  | none => rw [hrow] at hex; exact absurd hex (by simp)
  | some row =>
      rw [hrow] at hex
      have hex' := Option.some.inj hex
      obtain ⟨h1, h2, h3⟩ := htok row.comment_text d.max_len
      subst hex'
      refine ⟨?_, ?_, ?_, ?_, row, rfl, ?_⟩
      · rw [← hml]; exact h1
      · rw [← hml]; exact h2
      · rw [← hml]; exact h3
      · rw [hlab]
        simp [labels, labelValue]
      · rw [hlab]
        simp [labels, labelValue]

/-- Witness for C6 on the concrete one-row dataset with the padding
tokenizer. -/
theorem dataset_get_shape_witness :
    TokenizerContract demoDataset.tokenizer ∧
    (({ input_ids := List.replicate MAX_LEN 0
        attention_mask := List.replicate MAX_LEN 1
        token_type_ids := List.replicate MAX_LEN 0
        targets := [1, 0, 0, 0, 0, 0] } : EncodedExample).input_ids.length = MAX_LEN ∧
     ({ input_ids := List.replicate MAX_LEN 0
        attention_mask := List.replicate MAX_LEN 1
        token_type_ids := List.replicate MAX_LEN 0
        targets := [1, 0, 0, 0, 0, 0] } : EncodedExample).attention_mask.length = MAX_LEN ∧
     ({ input_ids := List.replicate MAX_LEN 0
        attention_mask := List.replicate MAX_LEN 1
        token_type_ids := List.replicate MAX_LEN 0
        targets := [1, 0, 0, 0, 0, 0] } : EncodedExample).token_type_ids.length = MAX_LEN ∧
     ({ input_ids := List.replicate MAX_LEN 0
        attention_mask := List.replicate MAX_LEN 1
        token_type_ids := List.replicate MAX_LEN 0
        targets := [1, 0, 0, 0, 0, 0] } : EncodedExample).targets.length = 6 ∧
     ∃ row, ilocGet demoDataset.df 0 = some row ∧
       ({ input_ids := List.replicate MAX_LEN 0
          attention_mask := List.replicate MAX_LEN 1
          token_type_ids := List.replicate MAX_LEN 0
          targets := [1, 0, 0, 0, 0, 0] } : EncodedExample).targets
         = [row.toxic, row.severe_toxic, row.obscene, row.threat,
            row.insult, row.identity_hate]) :=
  ⟨fun s L => by simp [demoDataset, padTokenizer],
   dataset_get_shape demoDataset
     (fun s L => by simp [demoDataset, padTokenizer]) rfl rfl 0 _ rfl⟩

/-- The loop body preserves whether a scheduler is configured. -/
theorem trainStep_sched_isSome {E W G O S B : Type} (env : TorchEnv E W G O S B)
    (st : OptimState E W G O S) (b : B) :
    (trainStep env st b).1.sched.isSome = st.sched.isSome := by
  simp [trainStep, Option.isSome_map']

/-- The operations of one loop iteration are exactly the per-batch action
list. -/
theorem trainStep_actions {E W G O S B : Type} (env : TorchEnv E W G O S B)
    (st : OptimState E W G O S) (b : B) :
    (trainStep env st b).2.2 = perBatchActions st.sched.isSome := by
  simp [trainStep, perBatchActions]

/-- The loss accumulator of the training fold adds up the per-batch losses. -/
theorem train_fold_loss {E W G O S B : Type} (env : TorchEnv E W G O S B) :
    ∀ (bs : List B) (st : OptimState E W G O S) (acc : ℚ) (tr : List TrainAction),
      (bs.foldl (fun acc' b =>
          let step := trainStep env acc'.1 b
          (step.1, acc'.2.1 + step.2.1, acc'.2.2 ++ step.2.2)) (st, acc, tr)).2.1
        = acc + (epochBatchLosses env st bs).sum
  | [], st, acc, tr => by simp [epochBatchLosses]
  | b :: bs, st, acc, tr => by
      simp only [List.foldl_cons, epochBatchLosses, List.sum_cons]
      rw [train_fold_loss env bs]
      ring

/-- The trace accumulator of the training fold concatenates one per-batch
action list per batch. -/
theorem train_fold_trace {E W G O S B : Type} (env : TorchEnv E W G O S B) :
    ∀ (bs : List B) (st : OptimState E W G O S) (acc : ℚ) (tr : List TrainAction),
      (bs.foldl (fun acc' b =>
          let step := trainStep env acc'.1 b
          (step.1, acc'.2.1 + step.2.1, acc'.2.2 ++ step.2.2)) (st, acc, tr)).2.2
        = tr ++ (List.replicate bs.length (perBatchActions st.sched.isSome)).flatten
  | [], st, acc, tr => by simp
  | b :: bs, st, acc, tr => by
      simp only [List.foldl_cons, List.length_cons]
      rw [train_fold_trace env bs, trainStep_sched_isSome, trainStep_actions,
        List.replicate_succ, List.flatten_cons, List.append_assoc]

/-- C2: for every non-empty loader, each loop iteration performs, in order,
forward pass, loss computation, gradient clearing, back-propagation, clipping
of the global gradient norm to 1.0, the optimizer step, and (when a scheduler
is configured) one scheduler step; and the returned value is the arithmetic
mean of the per-batch losses. -/
theorem train_epoch_contract {E W G O S B : Type} (env : TorchEnv E W G O S B)
    (m : ModelState E W) (g : G) (o : O) (sched : Option S) (batches : List B)
    (hne : batches ≠ []) :
    (train_epoch env m g o sched batches).2.1
      = some ((epochBatchLosses env
          { model := { p := m.p, training := true }, grads := g, opt := o,
            sched := sched } batches).sum / (batches.length : ℚ)) ∧
    (train_epoch env m g o sched batches).2.2
      = (List.replicate batches.length (perBatchActions sched.isSome)).flatten := by
  have hlen : batches.length ≠ 0 := by
    simpa [List.length_eq_zero] using hne
  constructor
  · simp only [train_epoch]
    rw [if_neg hlen]
    congr 1
    rw [train_fold_loss]
    ring
  · simp only [train_epoch]
    rw [train_fold_trace]
    simp

/-- Witness for C2 on the stub environment with a scheduler configured and a
two-batch loader. -/
theorem train_epoch_contract_witness :
    ([[[0, 1]], [[1, 1]]] : List (List (List ℚ))) ≠ [] ∧
    ((train_epoch stubEnv stubModel () () (some ()) [[[0, 1]], [[1, 1]]]).2.1
      = some ((epochBatchLosses stubEnv
          { model := { p := stubModel.p, training := true }, grads := (), opt := (),
            sched := some () } [[[0, 1]], [[1, 1]]]).sum
          / (([[[0, 1]], [[1, 1]]] : List (List (List ℚ))).length : ℚ)) ∧
     (train_epoch stubEnv stubModel () () (some ()) [[[0, 1]], [[1, 1]]]).2.2
      = (List.replicate ([[[0, 1]], [[1, 1]]] : List (List (List ℚ))).length
          (perBatchActions (some () : Option Unit).isSome)).flatten) :=
  ⟨by simp,
   train_epoch_contract stubEnv stubModel () () (some ()) [[[0, 1]], [[1, 1]]]
     (by simp)⟩

/-- C8: evaluation never modifies the classifier's parameters, runs the model
in evaluation mode, and its entire result is independent of the dropout
operation (dropout is inactive during evaluation). -/
theorem eval_model_frame {E W G O S B : Type} (env : TorchEnv E W G O S B)
    (m : ModelState E W) (batches : List B) :
    (eval_model env m batches).model.p = m.p ∧
    (eval_model env m batches).model.training = false ∧
    ∀ dropout₂, eval_model { env with dropout := dropout₂ } m batches
        = eval_model env m batches :=
  ⟨rfl, rfl, fun _ => rfl⟩

/-- C10: with a loader of zero batches both loops fail with a
division-by-zero condition when computing the average loss, and with at least
one batch the average loss is well-defined. -/
theorem loops_empty_loader_div {E W G O S B : Type} (env : TorchEnv E W G O S B)
    (m : ModelState E W) (g : G) (o : O) (sched : Option S) :
    (train_epoch env m g o sched ([] : List B)).2.1 = none ∧
    (eval_model env m ([] : List B)).avg_loss = none ∧
    ∀ batches : List B, batches ≠ [] →
      ((train_epoch env m g o sched batches).2.1.isSome = true ∧
       (eval_model env m batches).avg_loss.isSome = true) := by
  refine ⟨by simp [train_epoch], by simp [eval_model], ?_⟩
  intro batches hbne
  have hlen : batches.length ≠ 0 := by
    simpa [List.length_eq_zero] using hbne
  exact ⟨by simp [train_epoch, hlen], by simp [eval_model, hlen]⟩

/-- Witness for C10 on the stub environment and a one-batch loader. -/
theorem loops_empty_loader_div_witness :
    ((train_epoch stubEnv stubModel () () (none : Option Unit)
        ([] : List (List (List ℚ)))).2.1 = none ∧
     (eval_model stubEnv stubModel ([] : List (List (List ℚ)))).avg_loss = none ∧
     ∀ batches : List (List (List ℚ)), batches ≠ [] →
       ((train_epoch stubEnv stubModel () () (none : Option Unit) batches).2.1.isSome = true ∧
        (eval_model stubEnv stubModel batches).avg_loss.isSome = true)) :=
  loops_empty_loader_div stubEnv stubModel () () none

/-- A pair contribution lies in `[0, 1]`. -/
theorem pairContrib_bounds (p n : ℚ) : 0 ≤ pairContrib p n ∧ pairContrib p n ≤ 1 := by
  unfold pairContrib
  split
  · exact ⟨zero_le_one, le_rfl⟩
  · split
    · norm_num
    · norm_num

/-- The pair-contribution sum is non-negative. -/
theorem aucSum_nonneg (pos neg : List ℚ) : 0 ≤ aucSum pos neg := by
  refine List.sum_nonneg ?_
  intro x hx
  obtain ⟨p, -, rfl⟩ := List.mem_map.mp hx
  refine List.sum_nonneg ?_
  intro y hy
  obtain ⟨n, -, rfl⟩ := List.mem_map.mp hy
  exact (pairContrib_bounds p n).1

/-- The pair-contribution sum is at most the number of pairs. -/
theorem aucSum_le (pos neg : List ℚ) :
    aucSum pos neg ≤ (pos.length : ℚ) * (neg.length : ℚ) := by
  unfold aucSum
  have hinner : ∀ p : ℚ, (neg.map (fun n => pairContrib p n)).sum ≤ (neg.length : ℚ) := by
    intro p
    have h := List.sum_le_card_nsmul (neg.map (fun n => pairContrib p n)) 1 ?_
    · rw [List.length_map, nsmul_eq_mul, mul_one] at h
      exact h
    · intro x hx
      obtain ⟨n, -, rfl⟩ := List.mem_map.mp hx
      exact (pairContrib_bounds p n).2
  have h := List.sum_le_card_nsmul
    (pos.map (fun p => (neg.map (fun n => pairContrib p n)).sum))
    ((neg.length : ℚ)) ?_
  · rw [List.length_map, nsmul_eq_mul] at h
    exact h
  · intro x hx
    obtain ⟨p, -, rfl⟩ := List.mem_map.mp hx
    exact hinner p

/-- A single-class target vector makes the ranking score undefined. -/
theorem roc_auc_score_single_class (y s : List ℚ)
    (h : (∀ v ∈ y, v = 0) ∨ (∀ v ∈ y, v = 1)) : roc_auc_score y s = none := by
  unfold roc_auc_score
  rcases h with h | h
  · rw [if_pos]
    left
    rw [List.length_map, List.length_eq_zero, List.filter_eq_nil_iff]
    intro t ht
    have h1 := (List.of_mem_zip ht).1
    simp only [decide_eq_true_eq]
    rw [h t.1 h1]
    norm_num
  · rw [if_pos]
    right
    rw [List.length_map, List.length_eq_zero, List.filter_eq_nil_iff]
    intro t ht
    have h1 := (List.of_mem_zip ht).1
    simp only [decide_eq_true_eq]
    rw [h t.1 h1]
    norm_num

/-- A value occurring in the first of two same-length lists occurs as the
first component of a zipped pair. -/
theorem exists_zip_pair : ∀ (y s : List ℚ) (c : ℚ), y.length = s.length →
    c ∈ y → ∃ b, (c, b) ∈ y.zip s
  | [], _, c, _, hc => absurd hc (List.not_mem_nil c)
  | _ :: _, [], _, hlen, _ => by simp at hlen
  | a :: y, b :: s, c, hlen, hc => by
      rcases List.mem_cons.mp hc with rfl | hc
      · exact ⟨b, List.mem_cons_self _ _⟩
      · obtain ⟨b', hb'⟩ := exists_zip_pair y s c (by simpa using hlen) hc
        exact ⟨b', List.mem_cons_of_mem _ hb'⟩

/-- With both classes present among equal-length targets and scores, the
ranking score is defined and lies in `[0, 1]`. -/
theorem roc_auc_score_defined (y s : List ℚ) (hlen : y.length = s.length)
    (h0 : (0 : ℚ) ∈ y) (h1 : (1 : ℚ) ∈ y) :
    ∃ q, roc_auc_score y s = some q ∧ 0 ≤ q ∧ q ≤ 1 := by
  obtain ⟨b0, hb0⟩ := exists_zip_pair y s 0 hlen h0
  obtain ⟨b1, hb1⟩ := exists_zip_pair y s 1 hlen h1
  have hpos : b1 ∈ ((y.zip s).filter (fun t => decide (t.1 = 1))).map Prod.snd :=
    List.mem_map.mpr ⟨(1, b1), List.mem_filter.mpr ⟨hb1, by simp⟩, rfl⟩
  have hneg : b0 ∈ ((y.zip s).filter (fun t => decide (t.1 = 0))).map Prod.snd :=
    List.mem_map.mpr ⟨(0, b0), List.mem_filter.mpr ⟨hb0, by simp⟩, rfl⟩
  have hplen : ((y.zip s).filter (fun t => decide (t.1 = 1))).map Prod.snd ≠ [] :=
    List.ne_nil_of_mem hpos
  have hnlen : ((y.zip s).filter (fun t => decide (t.1 = 0))).map Prod.snd ≠ [] :=
    List.ne_nil_of_mem hneg
  unfold roc_auc_score
  rw [if_neg]
  · refine ⟨_, rfl, ?_, ?_⟩
    · have h₁ := aucSum_nonneg
        (((y.zip s).filter (fun t => decide (t.1 = 1))).map Prod.snd)
        (((y.zip s).filter (fun t => decide (t.1 = 0))).map Prod.snd)
      positivity
    · refine div_le_one_of_le₀ (aucSum_le _ _) ?_
      positivity
  · push_neg
    constructor
    · simpa [List.length_eq_zero] using hplen
    · simpa [List.length_eq_zero] using hnlen

/-- The concatenated output matrix has as many rows as the concatenated target
matrix whenever each batch's forward output has one row per target row. -/
theorem allOutputs_length_eq {E W G O S B : Type} (env : TorchEnv E W G O S B)
    (m : ModelState E W) :
    ∀ batches : List B,
      (∀ b ∈ batches,
        (modelForward env { p := m.p, training := false } b).length
          = (env.batchTargets b).length) →
      (allOutputsOf env m batches).length = (allTargetsOf env batches).length
  | [], _ => rfl
  | b :: bs, h => by
      have hb := h b (List.mem_cons_self b bs)
      have ih := allOutputs_length_eq env m bs
        (fun b' hb' => h b' (List.mem_cons_of_mem b hb'))
      simp only [allOutputsOf, allTargetsOf, List.map_cons, List.flatten_cons,
        List.length_append, List.length_map] at ih ⊢
      omega

/-- C1: for each of the six labels independently, a single-class target column
yields the explicit undefined marker while the evaluation still scores all six
labels (the result has one entry per label, carrying the right label), and a
column with both classes present yields a numeric score in `[0, 1]`. -/
theorem eval_model_per_label {E W G O S B : Type} (env : TorchEnv E W G O S B)
    (m : ModelState E W) (batches : List B) (i : Nat) (hi : i < 6)
    (hshape : ∀ b ∈ batches,
      (modelForward env { p := m.p, training := false } b).length
        = (env.batchTargets b).length) :
    (eval_model env m batches).roc_auc.length = 6 ∧
    ((eval_model env m batches).roc_auc.getD i
        (Label.toxic, RocAucEntry.undefinedOneClass)).1 = labels.getD i Label.toxic ∧
    ((∀ v ∈ colOf (allTargetsOf env batches) i, v = 0) ∨
        (∀ v ∈ colOf (allTargetsOf env batches) i, v = 1) →
      ((eval_model env m batches).roc_auc.getD i
        (Label.toxic, RocAucEntry.undefinedOneClass)).2
        = RocAucEntry.undefinedOneClass) ∧
    ((0 : ℚ) ∈ colOf (allTargetsOf env batches) i ∧
        (1 : ℚ) ∈ colOf (allTargetsOf env batches) i →
      ∃ q, ((eval_model env m batches).roc_auc.getD i
          (Label.toxic, RocAucEntry.undefinedOneClass)).2 = RocAucEntry.score q ∧
        0 ≤ q ∧ q ≤ 1) := by
  have hentry : (eval_model env m batches).roc_auc.getD i
      (Label.toxic, RocAucEntry.undefinedOneClass)
      = (labels.getD i Label.toxic,
         match roc_auc_score (colOf (allTargetsOf env batches) i)
             (colOf (allOutputsOf env m batches) i) with
         | some q => RocAucEntry.score q
         | none => RocAucEntry.undefinedOneClass) := by
    interval_cases i <;> rfl
  have hclen : (colOf (allTargetsOf env batches) i).length
      = (colOf (allOutputsOf env m batches) i).length := by
    simp only [colOf, List.length_map]
    exact (allOutputs_length_eq env m batches hshape).symm
  refine ⟨?_, ?_, ?_, ?_⟩
  · simp [eval_model, labels]
  · rw [hentry]
  · intro h
    rw [hentry]
    simp only [roc_auc_score_single_class _ _ h]
  · rintro ⟨h0, h1⟩
    obtain ⟨q, hq, hq0, hq1⟩ := roc_auc_score_defined
      (colOf (allTargetsOf env batches) i)
      (colOf (allOutputsOf env m batches) i) hclen h0 h1
    rw [hentry]
    exact ⟨q, by simp only [hq], hq0, hq1⟩

/-- Witness for C1 on the stub environment and the concrete batch list, at
label index 0 whose column contains both classes. -/
theorem eval_model_per_label_witness :
    (0 < 6 ∧ ∀ b ∈ demoBatches,
      (modelForward stubEnv { p := stubModel.p, training := false } b).length
        = (stubEnv.batchTargets b).length) ∧
    ((eval_model stubEnv stubModel demoBatches).roc_auc.length = 6 ∧
     ((eval_model stubEnv stubModel demoBatches).roc_auc.getD 0
        (Label.toxic, RocAucEntry.undefinedOneClass)).1 = labels.getD 0 Label.toxic ∧
     ((∀ v ∈ colOf (allTargetsOf stubEnv demoBatches) 0, v = 0) ∨
        (∀ v ∈ colOf (allTargetsOf stubEnv demoBatches) 0, v = 1) →
      ((eval_model stubEnv stubModel demoBatches).roc_auc.getD 0
        (Label.toxic, RocAucEntry.undefinedOneClass)).2
        = RocAucEntry.undefinedOneClass) ∧
     ((0 : ℚ) ∈ colOf (allTargetsOf stubEnv demoBatches) 0 ∧
        (1 : ℚ) ∈ colOf (allTargetsOf stubEnv demoBatches) 0 →
      ∃ q, ((eval_model stubEnv stubModel demoBatches).roc_auc.getD 0
          (Label.toxic, RocAucEntry.undefinedOneClass)).2 = RocAucEntry.score q ∧
        0 ≤ q ∧ q ≤ 1)) :=
  ⟨⟨by decide, by decide⟩,
   eval_model_per_label stubEnv stubModel demoBatches 0 (by decide) (by decide)⟩
